import Mathlib

/-!
Verification development for the Price Guardian procurement-audit core
(src/App.tsx together with src/types.ts and src/services/geminiService.ts).

The reconciliation engine of App.tsx is embedded shallowly:

* JavaScript numbers are modelled as exact rationals (ℚ); the numeric
  literals 0.01 and 0.001 of the source become the rationals 1/100 and
  1/1000.
* A JavaScript string field that the extraction service may set to null
  (supplierName, invoiceNumber) is modelled as `Option String`
  (abbreviated `JStr`); `none` plays the role of null, and the derived
  `BEq` instance agrees with JavaScript strict equality on these values
  (null === null is true, null === s is false).
* `new Date(str).getTime()` at day granularity is modelled by parsing the
  ISO `YYYY-MM-DD` day prefix (the wire format the extraction prompt
  mandates) into a `CivilDate` and mapping it through the strictly
  monotone encoding `CivilDate.toTime`.  An unparseable string yields
  `none`, mirroring an Invalid Date whose NaN timestamp makes every `<`
  comparison false.
* React state updates (`setMasterItems`, `setRawInvoices`, ...) are pure
  functions on an explicit state; `useMemo` derivations are plain
  functions of their inputs.

The supplier-registry side effect of ingestion (App.tsx lines 225-230)
and the purely presentational code are not embedded: no claim refers to
them.
-/

section PriceGuardian

attribute [local semireducible] Rat.add Rat.sub Rat.mul Rat.inv

/-- A JavaScript string value that may be null (`none`). -/
abbrev JStr := Option String

/-- How JavaScript template interpolation renders a `JStr` (null prints as
the text "null"). -/
def JStr.text : JStr → String
  | some s => s
  | none => "null"

/-- A calendar date as carried by an ISO `YYYY-MM-DD` string. -/
structure CivilDate where
  year : Nat
  month : Nat
  day : Nat
deriving DecidableEq, Repr

/-- The calendar order on civil dates: lexicographic on
(year, month, day). -/
def CivilDate.Earlier (a b : CivilDate) : Prop :=
  a.year < b.year ∨
    (a.year = b.year ∧
      (a.month < b.month ∨ (a.month = b.month ∧ a.day < b.day)))

instance (a b : CivilDate) : Decidable (a.Earlier b) := by
  unfold CivilDate.Earlier; infer_instance

/-- Order-isomorphic stand-in for `Date.getTime()` at day granularity:
for parsed dates month ≤ 12 < 32 and day ≤ 31 < 32, so the encoding is
strictly monotone for the calendar order. -/
def CivilDate.toTime (c : CivilDate) : Nat :=
  c.year * 512 + c.month * 32 + c.day

/-- Gregorian leap-year rule, as validated by the JavaScript ISO date
parser. -/
def isLeapYear (y : Nat) : Bool :=
  (y % 4 == 0 && y % 100 != 0) || y % 400 == 0

/-- Number of days of a month, used to validate the day component. -/
def daysInMonth (y m : Nat) : Nat :=
  if m == 2 then (if isLeapYear y then 29 else 28)
  else if m == 4 || m == 6 || m == 9 || m == 11 then 30
  else 31

/-- Value of a decimal digit character. -/
def digitVal (c : Char) : Option Nat :=
  if c.isDigit then some (c.toNat - 48) else none

/-- Model of `new Date(s)` restricted to the program's date domain: the
extraction contract fixes the wire format to ISO `YYYY-MM-DD`, which the
JavaScript ISO parser validates component-wise (month 1..12, day 1 up to
the month's length).  Every other string stands for an Invalid Date and
yields `none`. -/
def jsDateParse (s : String) : Option CivilDate :=
  match s.data with
  | [y1, y2, y3, y4, h1, m1, m2, h2, d1, d2] =>
    if h1 == '-' && h2 == '-' then
      match digitVal y1, digitVal y2, digitVal y3, digitVal y4,
            digitVal m1, digitVal m2, digitVal d1, digitVal d2 with
      | some a, some b, some c, some d, some e, some f, some g, some h =>
        let y := 1000 * a + 100 * b + 10 * c + d
        let mo := 10 * e + f
        let da := 10 * g + h
        if 1 ≤ mo ∧ mo ≤ 12 ∧ 1 ≤ da ∧ da ≤ daysInMonth y mo then
          some ⟨y, mo, da⟩
        else none
      | _, _, _, _, _, _, _, _ => none
    else none
  | _ => none

/-- `str.split('T')[0]`: the prefix of the string before the first 'T'. -/
def stripTime (s : String) : String :=
  ⟨s.data.takeWhile (fun c => c != 'T')⟩

/-- The calendar day denoted by a date string once any time-of-day
component is stripped; `none` when the string is missing or
unparseable. -/
def calendarDayOf (s : String) : Option CivilDate :=
  jsDateParse (stripTime s)

/-- App.tsx lines 109-114.  The wildcard branch covers Invalid Dates:
their NaN timestamps make the JavaScript `<` comparison false. -/
def isInvoiceBackdated (invoiceDateStr masterLastUpdatedStr : String) : Bool :=
  if invoiceDateStr == "" || masterLastUpdatedStr == "" then false
  else
    match jsDateParse (stripTime invoiceDateStr),
          jsDateParse (stripTime masterLastUpdatedStr) with
    | some invDate, some masterDate => decide (invDate.toTime < masterDate.toTime)
    | _, _ => false

/-- One price-setting event of a baseline's append-only log
(types imported by App.tsx). -/
structure PriceHistoryEntry where
  date : String
  price : ℚ
  variance : ℚ
  percentChange : ℚ
  source : String
  invoiceNumber : JStr
  note : String
deriving DecidableEq, Repr

/-- A baseline anchor for one (supplierName, itemName) pair. -/
structure MasterItem where
  id : String
  supplierName : JStr
  name : String
  currentPrice : ℚ
  lastUpdated : String
  history : List PriceHistoryEntry
deriving DecidableEq, Repr

/-- An invoice line item; the last three fields are the ephemeral
annotations recomputed by every classification pass. -/
structure InvoiceItem where
  name : String
  quantity : ℚ
  unitPrice : ℚ
  total : ℚ
  previousUnitPrice : Option ℚ
  priceChange : Option ℚ
  percentChange : Option ℚ
deriving DecidableEq, Repr

/-- The derived invoice status enum of types.ts. -/
inductive InvoiceStatus where
  | matched
  | price_increase
  | price_decrease
  | mixed
  | new_supplier
deriving DecidableEq, Repr

/-- An audit record.  Pass-through metadata no embedded operation reads
(dueDate, docType, contact fields, receivedVia) is omitted. -/
structure Invoice where
  id : String
  supplierName : JStr
  date : String
  invoiceNumber : JStr
  totalAmount : ℚ
  gstAmount : ℚ
  items : List InvoiceItem
  status : InvoiceStatus
  fileName : String
  isPaid : Bool
  isHold : Bool
deriving DecidableEq, Repr

/-- One record of the pending-variance queue (the object literal pushed
at App.tsx lines 146-152). -/
structure VarianceRecord where
  key : String
  invoiceId : String
  invoiceNumber : JStr
  date : String
  supplierName : JStr
  itemName : String
  oldPrice : ℚ
  newPrice : ℚ
  variance : Option ℚ
  pct : Option ℚ
  masterItemId : Option String
deriving DecidableEq, Repr

/-- The master-baseline lookup `masterItems.find(m => m.supplierName ===
sup && m.name === name)` used throughout App.tsx. -/
def findMaster (masterItems : List MasterItem) (supplierName : JStr)
    (itemName : String) : Option MasterItem :=
  masterItems.find? (fun m => m.supplierName == supplierName && m.name == itemName)

/-- Per-item enrichment of App.tsx lines 118-125. -/
def enrichItem (masterItems : List MasterItem) (inv : Invoice)
    (item : InvoiceItem) : InvoiceItem :=
  let master := findMaster masterItems inv.supplierName item.name
  let isBackdated :=
    match master with
    | some m => isInvoiceBackdated inv.date m.lastUpdated
    | none => false
  let baseline : Option ℚ :=
    if isBackdated then none else master.map (fun m => m.currentPrice)
  let diff : ℚ :=
    match baseline with
    | some b => item.unitPrice - b
    | none => 0
  let pct : ℚ :=
    match baseline with
    | some b => if b = 0 then 0 else diff / b * 100
    | none => 0
  { item with previousUnitPrice := baseline, priceChange := some diff,
              percentChange := some pct }

/-- The "materially increased" test `(i.priceChange || 0) > 0.01` of
App.tsx line 128. -/
def exceedsIncrease (i : InvoiceItem) : Bool :=
  decide ((1 : ℚ)/100 < i.priceChange.getD 0)

/-- The "materially decreased" test `(i.priceChange || 0) < -0.01` of
App.tsx line 129. -/
def exceedsDecrease (i : InvoiceItem) : Bool :=
  decide (i.priceChange.getD 0 < -((1 : ℚ)/100))

/-- Invoice-level status aggregation, App.tsx lines 127-132. -/
def deriveStatus (items : List InvoiceItem) : InvoiceStatus :=
  let hasIncrease := items.any exceedsIncrease
  let hasDecrease := items.any exceedsDecrease
  if hasIncrease && hasDecrease then .mixed
  else if hasIncrease then .price_increase
  else if hasDecrease then .price_decrease
  else .matched

/-- Enrichment of one invoice, App.tsx lines 117-134. -/
def enrichInvoice (masterItems : List MasterItem) (inv : Invoice) : Invoice :=
  let itemsWithVariances := inv.items.map (enrichItem masterItems inv)
  { inv with items := itemsWithVariances,
             status := deriveStatus itemsWithVariances }

/-- Sort key standing in for `new Date(date).getTime()` in the descending
date comparators; an unparseable date's NaN makes the JavaScript
comparator's order unspecified, and the embedding picks the constant 0
for it.  The membership claims proved below do not depend on the order. -/
def dateKey (s : String) : Nat :=
  match jsDateParse (stripTime s) with
  | some c => c.toTime
  | none => 0

/-- The descending-by-date comparator of App.tsx line 135. -/
def laterInvoiceFirst (a b : Invoice) : Bool :=
  decide (dateKey b.date ≤ dateKey a.date)

/-- The `enrichedInvoices` memo, App.tsx lines 116-136. -/
def enrichedInvoicesOf (masterItems : List MasterItem)
    (rawInvoices : List Invoice) : List Invoice :=
  (rawInvoices.map (enrichInvoice masterItems)).mergeSort laterInvoiceFirst

/-- The pending test of App.tsx lines 142-145: a materially changed item
is pending unless a matching baseline is already synced to its unit
price within the 0.001 tolerance (`!isSynced`; an absent master makes
`isSynced` undefined, hence falsy, hence the item pending). -/
def isPendingItem (masterItems : List MasterItem) (inv : Invoice)
    (item : InvoiceItem) : Bool :=
  match item.priceChange with
  | none => false
  | some pc =>
    if (1 : ℚ)/100 < |pc| then
      match findMaster masterItems inv.supplierName item.name with
      | some m => !(decide (|m.currentPrice - item.unitPrice| < (1 : ℚ)/1000))
      | none => true
    else false

/-- The record pushed for a pending item, App.tsx lines 146-152. -/
def mkVarianceRecord (masterItems : List MasterItem) (inv : Invoice)
    (item : InvoiceItem) : VarianceRecord :=
  let master := findMaster masterItems inv.supplierName item.name
  { key := inv.id ++ "-" ++ item.name
    invoiceId := inv.id
    invoiceNumber := inv.invoiceNumber
    date := inv.date
    supplierName := inv.supplierName
    itemName := item.name
    oldPrice := item.previousUnitPrice.getD 0
    newPrice := item.unitPrice
    variance := item.priceChange
    pct := item.percentChange
    masterItemId := master.map (fun m => m.id) }

/-- The descending-by-date comparator of App.tsx line 157. -/
def laterVarianceFirst (a b : VarianceRecord) : Bool :=
  decide (dateKey b.date ≤ dateKey a.date)

/-- The `pendingVariances` memo, App.tsx lines 138-158. -/
def pendingVariancesOf (masterItems : List MasterItem)
    (enrichedInvoices : List Invoice) : List VarianceRecord :=
  let logs := enrichedInvoices.flatMap (fun inv =>
    inv.items.filterMap (fun item =>
      if isPendingItem masterItems inv item then
        some (mkVarianceRecord masterItems inv item)
      else none))
  logs.mergeSort laterVarianceFirst

/-- Placeholder for the wall-clock fresh id "mstr-" ++ Date.now(); no
claim depends on the id value. -/
def freshMasterItemId : String := "mstr-0"

/-- The history entry prepended by a successful commit,
App.tsx lines 182-186. -/
def commitHistoryEntry (item : MasterItem) (newPrice : ℚ) (invoiceNum : JStr)
    (invDate : String) : PriceHistoryEntry :=
  let variance := newPrice - item.currentPrice
  let pct := if item.currentPrice = 0 then 0 else variance / item.currentPrice * 100
  { date := invDate, price := newPrice, variance := variance,
    percentChange := pct, source := "audit", invoiceNumber := invoiceNum,
    note := "Market shift detected in Inv #" ++ JStr.text invoiceNum }

/-- The seed entry of a newly registered baseline (App.tsx lines 194 and
239). -/
def initialEntry (invDate : String) (price : ℚ) (invoiceNum : JStr) :
    PriceHistoryEntry :=
  { date := invDate, price := price, variance := 0, percentChange := 0,
    source := "audit", invoiceNumber := invoiceNum,
    note := "Initial Registration" }

/-- The updated master produced by a successful commit on an existing
baseline, App.tsx lines 180-187. -/
def committedMaster (item : MasterItem) (newPrice : ℚ) (invoiceNum : JStr)
    (invDate : String) : MasterItem :=
  { item with currentPrice := newPrice, lastUpdated := invDate,
              history := commitHistoryEntry item newPrice invoiceNum invDate
                           :: item.history }

/-- The fresh master created by a commit on an unseen pair,
App.tsx lines 192-195. -/
def freshMaster (supplierName : JStr) (itemName : String) (newPrice : ℚ)
    (invoiceNum : JStr) (invDate : String) : MasterItem :=
  { id := freshMasterItemId, supplierName := supplierName, name := itemName,
    currentPrice := newPrice, lastUpdated := invDate,
    history := [initialEntry invDate newPrice invoiceNum] }

/-- The Baseline Commit Engine `updateMasterRate`, App.tsx lines 172-198,
as the pure state transformer inside `setMasterItems`.  The inner `none`
branch is unreachable because `findIdx?` only returns in-range indices. -/
def updateMasterRate (prev : List MasterItem) (supplierName : JStr)
    (itemName : String) (newPrice : ℚ) (invoiceNum : JStr)
    (invDate : String) : List MasterItem :=
  match prev.findIdx?
      (fun m => m.supplierName == supplierName && m.name == itemName) with
  | some existingIdx =>
    match prev[existingIdx]? with
    | some item =>
      if isInvoiceBackdated invDate item.lastUpdated then prev
      else prev.set existingIdx (committedMaster item newPrice invoiceNum invDate)
    | none => prev
  | none => freshMaster supplierName itemName newPrice invoiceNum invDate :: prev

/-- One accepted variance applied to the store, as `acceptSelectedVariances`
(App.tsx lines 200-205) and the single-row commit button do. -/
def acceptVariance (ms : List MasterItem) (v : VarianceRecord) :
    List MasterItem :=
  updateMasterRate ms v.supplierName v.itemName v.newPrice v.invoiceNumber v.date

/-- Batched acceptance: sequential single commits in the order given. -/
def acceptVariances (ms : List MasterItem) (vs : List VarianceRecord) :
    List MasterItem :=
  vs.foldl acceptVariance ms

/-- One line item of an extraction result. -/
structure ExtractionItem where
  name : String
  quantity : ℚ
  unitPrice : ℚ
  total : ℚ
deriving DecidableEq, Repr

/-- The record the extraction collaborator returns for one document;
supplierName and invoiceNumber may be null (`none`), which is exactly
the situation the ingestion claims are about. -/
structure Extraction where
  docType : String
  supplierName : JStr
  date : String
  invoiceNumber : JStr
  totalAmount : ℚ
  gstAmount : ℚ
  items : List ExtractionItem
deriving DecidableEq, Repr

/-- An extraction line item spread into a stored invoice item; the
derived annotation fields start absent. -/
def toInvoiceItem (it : ExtractionItem) : InvoiceItem :=
  { name := it.name, quantity := it.quantity, unitPrice := it.unitPrice,
    total := it.total, previousUnitPrice := none, priceChange := none,
    percentChange := none }

/-- The seed MasterItem registered for a first-ever sighting of an
extraction item (the object pushed at App.tsx lines 237-240). -/
def seedMaster (ext : Extraction) (item : ExtractionItem) : MasterItem :=
  { id := freshMasterItemId, supplierName := ext.supplierName,
    name := item.name, currentPrice := item.unitPrice,
    lastUpdated := ext.date,
    history := [initialEntry ext.date item.unitPrice ext.invoiceNumber] }

/-- The item auto-registration step body, App.tsx lines 234-242: register
a seed baseline unless the (growing) store already holds the pair. -/
def registerStep (ext : Extraction) (next : List MasterItem)
    (item : ExtractionItem) : List MasterItem :=
  match findMaster next ext.supplierName item.name with
  | some _ => next
  | none => next ++ [seedMaster ext item]

/-- The item auto-registration side effect of ingestion,
App.tsx lines 232-244. -/
def registerNewItems (prev : List MasterItem) (ext : Extraction) :
    List MasterItem :=
  ext.items.foldl (registerStep ext) prev

/-- The state the ingestion coordinator mutates (the supplier registry is
omitted: no claim refers to it). -/
structure AppState where
  rawInvoices : List Invoice
  masterItems : List MasterItem
deriving DecidableEq, Repr

/-- Processing of one successfully extracted document inside
`handleFileUpload`, App.tsx lines 219-246: the extraction is spread into
a new invoice, new items are auto-registered, and the invoice is
prepended to the collection.  No field validation happens anywhere on
this path. -/
def ingestExtraction (st : AppState) (ext : Extraction)
    (fileName freshInvoiceId : String) : AppState :=
  let newInvoice : Invoice :=
    { id := freshInvoiceId, supplierName := ext.supplierName,
      date := ext.date, invoiceNumber := ext.invoiceNumber,
      totalAmount := ext.totalAmount, gstAmount := ext.gstAmount,
      items := ext.items.map toInvoiceItem, status := .matched,
      fileName := fileName, isPaid := false, isHold := false }
  { rawInvoices := newInvoice :: st.rawInvoices,
    masterItems := registerNewItems st.masterItems ext }

/-- The enriched shape of an item that has no usable baseline (none
exists, or the invoice is backdated): no previous price, zero deltas. -/
def noBaselineItem (it0 : InvoiceItem) : InvoiceItem :=
  { it0 with previousUnitPrice := none, priceChange := some 0,
             percentChange := some 0 }

/-- The enriched shape of an item compared against a live baseline. -/
def baselineComparedItem (m0 : MasterItem) (it0 : InvoiceItem) : InvoiceItem :=
  { it0 with previousUnitPrice := some m0.currentPrice,
             priceChange := some (it0.unitPrice - m0.currentPrice),
             percentChange := some (if m0.currentPrice = 0 then 0
               else (it0.unitPrice - m0.currentPrice) / m0.currentPrice * 100) }

/-! ### Concrete fixtures

Small concrete stores, invoices and extractions used by the witness
theorems.  They realise the walkthrough scenario of the specification:
a Widget baseline for supplier Acme anchored at 10.00, a February
invoice charging 12.00, and a stale mid-January invoice. -/

/-- Seed history entry of the Widget baseline. -/
def widgetSeed : PriceHistoryEntry := initialEntry "2024-01-01" 10 (some "A1")

/-- Baseline for (Acme, Widget) anchored at 10.00 on 2024-01-01. -/
def acmeWidget : MasterItem :=
  { id := "m1", supplierName := some "Acme", name := "Widget",
    currentPrice := 10, lastUpdated := "2024-01-01", history := [widgetSeed] }

/-- The same baseline after a later anchoring on 2024-02-01. -/
def lateAcmeWidget : MasterItem := { acmeWidget with lastUpdated := "2024-02-01" }

/-- A raw Widget line item charged at 12.00. -/
def widgetItem : InvoiceItem :=
  { name := "Widget", quantity := 1, unitPrice := 12, total := 12,
    previousUnitPrice := none, priceChange := none, percentChange := none }

/-- A February invoice from Acme carrying the 12.00 Widget item. -/
def febInvoice : Invoice :=
  { id := "inv-2", supplierName := some "Acme", date := "2024-02-01",
    invoiceNumber := some "B1", totalAmount := 12, gstAmount := 0,
    items := [widgetItem], status := .matched, fileName := "b.pdf",
    isPaid := false, isHold := false }

/-- A stale mid-January invoice for the same supplier and item. -/
def janInvoice : Invoice := { febInvoice with id := "inv-3", date := "2024-01-15" }

/-- The pending-variance record the classifier produces for the February
invoice against the 10.00 baseline. -/
def pendingWidget : VarianceRecord :=
  mkVarianceRecord [acmeWidget] (enrichInvoice [acmeWidget] febInvoice)
    (enrichItem [acmeWidget] febInvoice widgetItem)

/-- An extraction result whose supplierName the service left null. -/
def extractionMissingSupplier : Extraction :=
  { docType := "invoice", supplierName := none, date := "2024-03-01",
    invoiceNumber := some "INV-77", totalAmount := 100, gstAmount := 10,
    items := [] }

/-- The empty application state. -/
def emptyState : AppState := { rawInvoices := [], masterItems := [] }

/-- The extraction of the specification's first-sighting scenario:
supplier Acme, one Widget line at 10.00, dated 2024-01-01. -/
def widgetExtraction : Extraction :=
  { docType := "invoice", supplierName := some "Acme", date := "2024-01-01",
    invoiceNumber := some "A1", totalAmount := 10, gstAmount := 0,
    items := [{ name := "Widget", quantity := 1, unitPrice := 10,
                total := 10 }] }

/-! ### Helper lemmas about the date model -/

theorem daysInMonth_le (y m : Nat) : daysInMonth y m ≤ 31 := by
  unfold daysInMonth
  split_ifs <;> omega

theorem jsDateParse_bounds {s : String} {c : CivilDate}
    (h : jsDateParse s = some c) :
    1 ≤ c.month ∧ c.month ≤ 12 ∧ 1 ≤ c.day ∧ c.day ≤ 31 := by
  unfold jsDateParse at h
  split at h
  · split at h
    · split at h
      · dsimp only at h
        split at h
        · rename_i hrange
          cases h
          exact ⟨hrange.1, hrange.2.1, hrange.2.2.1,
            le_trans hrange.2.2.2 (daysInMonth_le _ _)⟩
        · exact absurd h (by simp)
      · exact absurd h (by simp)
    · exact absurd h (by simp)
  · exact absurd h (by simp)

theorem toTime_lt_iff {a b : CivilDate}
    (ham : a.month ≤ 12) (had : a.day ≤ 31)
    (hbm : b.month ≤ 12) (hbd : b.day ≤ 31) :
    a.toTime < b.toTime ↔ a.Earlier b := by
  unfold CivilDate.toTime CivilDate.Earlier
  omega

theorem calendarDayOf_empty : calendarDayOf "" = none := rfl

/-- `isInvoiceBackdated` factors through the stripped-and-parsed calendar
days; the separate empty-string test of the source is absorbed because
the empty string does not parse. -/
theorem isInvoiceBackdated_eq_calendar (d m : String) :
    isInvoiceBackdated d m =
      match calendarDayOf d, calendarDayOf m with
      | some a, some b => decide (a.toTime < b.toTime)
      | _, _ => false := by
  unfold isInvoiceBackdated calendarDayOf
  rcases hd : d == "" with _ | _
  · rcases hm : m == "" with _ | _
    · simp [hd, hm]
    · have hm' : m = "" := by simpa using hm
      subst hm'
      have : jsDateParse (stripTime "") = none := rfl
      simp [hd, this]
  · have hd' : d = "" := by simpa using hd
    subst hd'
    have : jsDateParse (stripTime "") = none := rfl
    simp [this]

theorem takeWhile_all_of_not_mem {l : List Char} (h : 'T' ∉ l) :
    l.takeWhile (fun c => c != 'T') = l := by
  induction l with
  | nil => rfl
  | cons c cs ih =>
    have hc : c ≠ 'T' := fun hc => h (hc ▸ List.mem_cons_self c cs)
    have hcs : 'T' ∉ cs := fun hm => h (List.mem_cons_of_mem c hm)
    simp [List.takeWhile_cons, hc, ih hcs]

theorem takeWhile_before_T {l r : List Char} (h : 'T' ∉ l) :
    (l ++ 'T' :: r).takeWhile (fun c => c != 'T') = l := by
  induction l with
  | nil => simp [List.takeWhile_cons]
  | cons c cs ih =>
    have hc : c ≠ 'T' := fun hc => h (hc ▸ List.mem_cons_self c cs)
    have hcs : 'T' ∉ cs := fun hm => h (List.mem_cons_of_mem c hm)
    simp [List.takeWhile_cons, hc, ih hcs]

theorem stripTime_append {d t : String} (h : 'T' ∉ d.data) :
    stripTime (d ++ "T" ++ t) = d := by
  unfold stripTime
  have : (d ++ "T" ++ t).data = d.data ++ 'T' :: t.data := by
    simp [String.data_append]
  rw [this, takeWhile_before_T h]

theorem stripTime_id {d : String} (h : 'T' ∉ d.data) : stripTime d = d := by
  unfold stripTime
  rw [takeWhile_all_of_not_mem h]

theorem calendarDayOf_append {d t : String} (h : 'T' ∉ d.data) :
    calendarDayOf (d ++ "T" ++ t) = calendarDayOf d := by
  unfold calendarDayOf
  rw [stripTime_append h, stripTime_id h]

/-! ### Claim theorems -/

/-- Claim C2: `isInvoiceBackdated d m` is true exactly when the calendar
day denoted by `d` is strictly earlier than the one denoted by `m`; any
time-of-day component after a 'T' is stripped before the comparison, and
the function returns false whenever either input is missing (empty) or
unparseable as a date. -/
theorem isInvoiceBackdated_day_spec :
    (∀ d m a b, calendarDayOf d = some a → calendarDayOf m = some b →
      (isInvoiceBackdated d m = true ↔ a.Earlier b)) ∧
    (∀ d m, calendarDayOf d = none ∨ calendarDayOf m = none →
      isInvoiceBackdated d m = false) ∧
    (∀ d t m, 'T' ∉ d.data →
      isInvoiceBackdated (d ++ "T" ++ t) m = isInvoiceBackdated d m ∧
      isInvoiceBackdated m (d ++ "T" ++ t) = isInvoiceBackdated m d) := by
  refine ⟨?_, ?_, ?_⟩
  · intro d m a b hd hm
    have ha := jsDateParse_bounds hd
    have hb := jsDateParse_bounds hm
    rw [isInvoiceBackdated_eq_calendar, hd, hm]
    simpa using toTime_lt_iff ha.2.1 ha.2.2.2 hb.2.1 hb.2.2.2
  · intro d m h
    rw [isInvoiceBackdated_eq_calendar]
    rcases h with h | h <;> rw [h] <;> rcases calendarDayOf m with _ | _ <;>
      first | rfl | (rcases calendarDayOf d with _ | _ <;> rfl)
  · intro d t m h
    constructor
    · rw [isInvoiceBackdated_eq_calendar, isInvoiceBackdated_eq_calendar,
        calendarDayOf_append h]
    · rw [isInvoiceBackdated_eq_calendar, isInvoiceBackdated_eq_calendar,
        calendarDayOf_append h]

/-- Witness for C2 at concrete dates: a stale invoice date is backdated,
an unparseable date fails open, and a time-of-day suffix does not change
the verdict. -/
theorem isInvoiceBackdated_day_spec_witness :
    isInvoiceBackdated "2024-01-15" "2024-02-01" = true ∧
    isInvoiceBackdated "20x4-01-15" "2024-02-01" = false ∧
    isInvoiceBackdated "2024-01-15T23:59:59" "2024-02-01"
      = isInvoiceBackdated "2024-01-15" "2024-02-01" :=
  ⟨(isInvoiceBackdated_day_spec.1 "2024-01-15" "2024-02-01"
      ⟨2024, 1, 15⟩ ⟨2024, 2, 1⟩ (by decide) (by decide)).mpr (by decide),
   isInvoiceBackdated_day_spec.2.1 "20x4-01-15" "2024-02-01"
     (Or.inl (by decide)),
   (isInvoiceBackdated_day_spec.2.2 "2024-01-15" "23:59:59" "2024-02-01"
     (by decide)).1⟩

/-- Claim C1, evaluated at the failing input: ingesting an extraction
whose supplierName is null (missing) raises no validation failure and
persists the invoice anyway — the collection gains exactly the new
record, whose stored supplierName is null.  The source's
`handleFileUpload` contains no presence check for supplierName or
invoiceNumber before `setRawInvoices`. -/
theorem ingest_missing_supplier_persists :
    (ingestExtraction emptyState extractionMissingSupplier "scan.pdf"
        "inv-1").rawInvoices.map Invoice.supplierName = [none] ∧
    (ingestExtraction emptyState extractionMissingSupplier "scan.pdf"
        "inv-1").rawInvoices.length = 1 :=
  ⟨rfl, rfl⟩

theorem any_exceedsIncrease_iff (items : List InvoiceItem) :
    items.any exceedsIncrease = true ↔
      ∃ i ∈ items, (1 : ℚ)/100 < i.priceChange.getD 0 := by
  simp [List.any_eq_true, exceedsIncrease]

theorem any_exceedsDecrease_iff (items : List InvoiceItem) :
    items.any exceedsDecrease = true ↔
      ∃ i ∈ items, i.priceChange.getD 0 < -((1 : ℚ)/100) := by
  simp [List.any_eq_true, exceedsDecrease]

/-- Claim C3: when a MasterItem exists for (invoice.supplierName,
item.name) but the invoice date is backdated relative to its
lastUpdated, the classifier treats the item as if no baseline existed:
previousUnitPrice is undefined, priceChange is 0, and the item fails
both material-change tests that feed the invoice status, regardless of
its unitPrice. -/
theorem backdated_item_no_baseline (ms : List MasterItem) (inv : Invoice)
    (item : InvoiceItem) (m : MasterItem)
    (hm : findMaster ms inv.supplierName item.name = some m)
    (hb : isInvoiceBackdated inv.date m.lastUpdated = true) :
    (enrichItem ms inv item).previousUnitPrice = none ∧
    (enrichItem ms inv item).priceChange = some 0 ∧
    exceedsIncrease (enrichItem ms inv item) = false ∧
    exceedsDecrease (enrichItem ms inv item) = false := by
  have he : enrichItem ms inv item =
      { item with previousUnitPrice := none, priceChange := some 0,
                  percentChange := some 0 } := by
    unfold enrichItem
    rw [hm]
    simp [hb]
  refine ⟨by rw [he], by rw [he], ?_, ?_⟩ <;>
    rw [he] <;> simp [exceedsIncrease, exceedsDecrease]

/-- Witness for C3: the stale January invoice against the baseline
re-anchored on 2024-02-01. -/
theorem backdated_item_no_baseline_witness :
    findMaster [lateAcmeWidget] janInvoice.supplierName widgetItem.name
        = some lateAcmeWidget ∧
    isInvoiceBackdated janInvoice.date lateAcmeWidget.lastUpdated = true ∧
    ((enrichItem [lateAcmeWidget] janInvoice widgetItem).previousUnitPrice = none ∧
     (enrichItem [lateAcmeWidget] janInvoice widgetItem).priceChange = some 0 ∧
     exceedsIncrease (enrichItem [lateAcmeWidget] janInvoice widgetItem) = false ∧
     exceedsDecrease (enrichItem [lateAcmeWidget] janInvoice widgetItem) = false) :=
  ⟨by decide, by decide,
   backdated_item_no_baseline [lateAcmeWidget] janInvoice widgetItem
     lateAcmeWidget (by decide) (by decide)⟩

/-- Claim C4: the derived invoice status is `mixed` iff some item is
materially up (priceChange > 0.01) and some materially down
(priceChange < -0.01); `price_increase` iff only the former;
`price_decrease` iff only the latter; `matched` iff every item's
priceChange lies within the ±0.01 noise band — so items inside that band
never produce a non-matched status. -/
theorem invoice_status_aggregation (ms : List MasterItem) (inv : Invoice) :
    ((enrichInvoice ms inv).status = .mixed ↔
      ((∃ i ∈ (enrichInvoice ms inv).items, (1 : ℚ)/100 < i.priceChange.getD 0) ∧
       (∃ i ∈ (enrichInvoice ms inv).items, i.priceChange.getD 0 < -((1 : ℚ)/100)))) ∧
    ((enrichInvoice ms inv).status = .price_increase ↔
      ((∃ i ∈ (enrichInvoice ms inv).items, (1 : ℚ)/100 < i.priceChange.getD 0) ∧
       ¬(∃ i ∈ (enrichInvoice ms inv).items, i.priceChange.getD 0 < -((1 : ℚ)/100)))) ∧
    ((enrichInvoice ms inv).status = .price_decrease ↔
      (¬(∃ i ∈ (enrichInvoice ms inv).items, (1 : ℚ)/100 < i.priceChange.getD 0) ∧
       (∃ i ∈ (enrichInvoice ms inv).items, i.priceChange.getD 0 < -((1 : ℚ)/100)))) ∧
    ((enrichInvoice ms inv).status = .matched ↔
      (∀ i ∈ (enrichInvoice ms inv).items,
        -((1 : ℚ)/100) ≤ i.priceChange.getD 0 ∧ i.priceChange.getD 0 ≤ (1 : ℚ)/100)) := by
  have hst : (enrichInvoice ms inv).status
      = deriveStatus (inv.items.map (enrichItem ms inv)) := rfl
  have hit : (enrichInvoice ms inv).items
      = inv.items.map (enrichItem ms inv) := rfl
  rw [hst, hit]
  set items := inv.items.map (enrichItem ms inv) with hdef
  clear_value items
  rcases hinc : items.any exceedsIncrease with _ | _ <;>
    rcases hdec : items.any exceedsDecrease with _ | _
  · have hval : deriveStatus items = .matched := by
      unfold deriveStatus; rw [hinc, hdec]; rfl
    have h1 : ¬∃ i ∈ items, (1 : ℚ)/100 < i.priceChange.getD 0 := by
      rw [← any_exceedsIncrease_iff, hinc]; simp
    have h2 : ¬∃ i ∈ items, i.priceChange.getD 0 < -((1 : ℚ)/100) := by
      rw [← any_exceedsDecrease_iff, hdec]; simp
    rw [hval]
    refine ⟨iff_of_false (by decide) (fun h => h1 h.1),
            iff_of_false (by decide) (fun h => h1 h.1),
            iff_of_false (by decide) (fun h => h2 h.2),
            iff_of_true rfl ?_⟩
    intro i hi
    constructor
    · by_contra hlt
      exact h2 ⟨i, hi, not_le.mp hlt⟩
    · by_contra hlt
      exact h1 ⟨i, hi, not_le.mp hlt⟩
  · have hval : deriveStatus items = .price_decrease := by
      unfold deriveStatus; rw [hinc, hdec]; rfl
    have h1 : ¬∃ i ∈ items, (1 : ℚ)/100 < i.priceChange.getD 0 := by
      rw [← any_exceedsIncrease_iff, hinc]; simp
    have h2 : ∃ i ∈ items, i.priceChange.getD 0 < -((1 : ℚ)/100) :=
      (any_exceedsDecrease_iff items).mp hdec
    rw [hval]
    refine ⟨iff_of_false (by decide) (fun h => h1 h.1),
            iff_of_false (by decide) (fun h => h1 h.1),
            iff_of_true rfl ⟨h1, h2⟩,
            iff_of_false (by decide) ?_⟩
    intro hall
    obtain ⟨i, hi, hlt⟩ := h2
    exact absurd (hall i hi).1 (not_le.mpr hlt)
  · have hval : deriveStatus items = .price_increase := by
      unfold deriveStatus; rw [hinc, hdec]; rfl
    have h1 : ∃ i ∈ items, (1 : ℚ)/100 < i.priceChange.getD 0 :=
      (any_exceedsIncrease_iff items).mp hinc
    have h2 : ¬∃ i ∈ items, i.priceChange.getD 0 < -((1 : ℚ)/100) := by
      rw [← any_exceedsDecrease_iff, hdec]; simp
    rw [hval]
    refine ⟨iff_of_false (by decide) (fun h => h2 h.2),
            iff_of_true rfl ⟨h1, h2⟩,
            iff_of_false (by decide) (fun h => h2 h.2),
            iff_of_false (by decide) ?_⟩
    intro hall
    obtain ⟨i, hi, hlt⟩ := h1
    exact absurd (hall i hi).2 (not_le.mpr hlt)
  · have hval : deriveStatus items = .mixed := by
      unfold deriveStatus; rw [hinc, hdec]; rfl
    have h1 : ∃ i ∈ items, (1 : ℚ)/100 < i.priceChange.getD 0 :=
      (any_exceedsIncrease_iff items).mp hinc
    have h2 : ∃ i ∈ items, i.priceChange.getD 0 < -((1 : ℚ)/100) :=
      (any_exceedsDecrease_iff items).mp hdec
    rw [hval]
    refine ⟨iff_of_true rfl ⟨h1, h2⟩,
            iff_of_false (by decide) (fun h => h.2 h2),
            iff_of_false (by decide) (fun h => h.1 h1),
            iff_of_false (by decide) ?_⟩
    intro hall
    obtain ⟨i, hi, hlt⟩ := h1
    exact absurd (hall i hi).2 (not_le.mpr hlt)

theorem mem_pendingVariancesOf {ms : List MasterItem} {enriched : List Invoice}
    {v : VarianceRecord} :
    v ∈ pendingVariancesOf ms enriched ↔
      ∃ inv ∈ enriched, ∃ item ∈ inv.items,
        isPendingItem ms inv item = true ∧ v = mkVarianceRecord ms inv item := by
  unfold pendingVariancesOf
  rw [List.mem_mergeSort, List.mem_flatMap]
  constructor
  · rintro ⟨inv, hinv, hv⟩
    rw [List.mem_filterMap] at hv
    obtain ⟨item, hitem, hf⟩ := hv
    by_cases hp : isPendingItem ms inv item = true
    · rw [if_pos hp] at hf
      exact ⟨inv, hinv, item, hitem, hp, (Option.some.inj hf).symm⟩
    · rw [if_neg hp] at hf
      cases hf
  · rintro ⟨inv, hinv, item, hitem, hp, hv⟩
    exact ⟨inv, hinv, List.mem_filterMap.mpr ⟨item, hitem, by rw [if_pos hp, hv]⟩⟩

theorem isPendingItem_iff {ms : List MasterItem} {inv : Invoice}
    {item : InvoiceItem} :
    isPendingItem ms inv item = true ↔
      (1 : ℚ)/100 < |item.priceChange.getD 0| ∧
      ¬∃ m, findMaster ms inv.supplierName item.name = some m ∧
            |m.currentPrice - item.unitPrice| < (1 : ℚ)/1000 := by
  unfold isPendingItem
  rcases item.priceChange with _ | pc
  · refine iff_of_false (by simp) ?_
    rintro ⟨h1, -⟩
    simp only [Option.getD_none, abs_zero] at h1
    exact absurd h1 (by norm_num)
  · simp only [Option.getD_some]
    by_cases hlt : (1 : ℚ)/100 < |pc|
    · rw [if_pos hlt]
      rcases findMaster ms inv.supplierName item.name with _ | m
      · exact iff_of_true rfl ⟨hlt, by rintro ⟨m, hm', -⟩; cases hm'⟩
      · constructor
        · intro h
          refine ⟨hlt, ?_⟩
          rintro ⟨m', hm', hclose⟩
          cases hm'
          have h' : (!decide (|m.currentPrice - item.unitPrice| < (1 : ℚ)/1000))
              = true := h
          simp only [Bool.not_eq_true', decide_eq_false_iff_not] at h'
          exact h' hclose
        · rintro ⟨-, h2⟩
          show (!decide (|m.currentPrice - item.unitPrice| < (1 : ℚ)/1000)) = true
          simp only [Bool.not_eq_true', decide_eq_false_iff_not]
          exact fun hclose => h2 ⟨m, rfl, hclose⟩
    · rw [if_neg hlt]
      exact iff_of_false (by simp) (fun h => hlt h.1)

/-- Claim C5: an enriched invoice item appears in the pending-variance
queue exactly when its priceChange is material (|priceChange| > 0.01)
and it is not already synced — no matching MasterItem holds a
currentPrice equal to the item's unitPrice within the 0.001 tolerance —
and each pending record carries the supplier name, item name, invoice
reference, old price, new price and percent change of its source
item. -/
theorem pending_variance_characterization (ms : List MasterItem)
    (raw : List Invoice) (v : VarianceRecord) :
    v ∈ pendingVariancesOf ms (enrichedInvoicesOf ms raw) ↔
      ∃ inv ∈ enrichedInvoicesOf ms raw, ∃ item ∈ inv.items,
        v = mkVarianceRecord ms inv item ∧
        (1 : ℚ)/100 < |item.priceChange.getD 0| ∧
        ¬(∃ m, findMaster ms inv.supplierName item.name = some m ∧
               |m.currentPrice - item.unitPrice| < (1 : ℚ)/1000) ∧
        v.supplierName = inv.supplierName ∧ v.itemName = item.name ∧
        v.invoiceId = inv.id ∧ v.invoiceNumber = inv.invoiceNumber ∧
        v.oldPrice = item.previousUnitPrice.getD 0 ∧
        v.newPrice = item.unitPrice ∧ v.pct = item.percentChange := by
  rw [mem_pendingVariancesOf]
  constructor
  · rintro ⟨inv, hinv, item, hitem, hp, hv⟩
    obtain ⟨h1, h2⟩ := isPendingItem_iff.mp hp
    subst hv
    exact ⟨inv, hinv, item, hitem, rfl, h1, h2, rfl, rfl, rfl, rfl, rfl, rfl, rfl⟩
  · rintro ⟨inv, hinv, item, hitem, hv, h1, h2, -⟩
    exact ⟨inv, hinv, item, hitem, isPendingItem_iff.mpr ⟨h1, h2⟩, hv⟩

/-! ### Bridging lemmas between findIdx? and find? -/

theorem findIdx?_none_find?_none {α : Type} {p : α → Bool} :
    ∀ {l : List α}, l.findIdx? p = none → l.find? p = none := by
  intro l
  induction l with
  | nil => intro _; rfl
  | cons x xs ih =>
    intro h
    rw [List.findIdx?_cons] at h
    by_cases hx : p x = true
    · rw [if_pos hx] at h
      cases h
    · rw [if_neg hx, List.findIdx?_succ] at h
      rw [List.find?_cons_of_neg _ hx]
      exact ih (Option.map_eq_none.mp h)

theorem findIdx?_some_spec {α : Type} {p : α → Bool} :
    ∀ {l : List α} {i : Nat}, l.findIdx? p = some i →
      ∃ a, l[i]? = some a ∧ p a = true ∧ l.find? p = some a := by
  intro l
  induction l with
  | nil => intro i h; cases h
  | cons x xs ih =>
    intro i h
    rw [List.findIdx?_cons] at h
    by_cases hx : p x = true
    · rw [if_pos hx] at h
      cases h
      exact ⟨x, List.getElem?_cons_zero, hx, List.find?_cons_of_pos _ hx⟩
    · rw [if_neg hx, List.findIdx?_succ] at h
      obtain ⟨j, hj, hi⟩ := Option.map_eq_some'.mp h
      obtain ⟨a, hget, hpa, hfind⟩ := ih hj
      subst hi
      exact ⟨a, by rw [List.getElem?_cons_succ]; exact hget, hpa,
        by rw [List.find?_cons_of_neg _ hx]; exact hfind⟩

theorem find?_set_self {α : Type} {p : α → Bool} :
    ∀ {l : List α} {i : Nat} {b : α}, l.findIdx? p = some i → p b = true →
      (l.set i b).find? p = some b := by
  intro l
  induction l with
  | nil => intro i b h _; cases h
  | cons x xs ih =>
    intro i b h hb
    rw [List.findIdx?_cons] at h
    by_cases hx : p x = true
    · rw [if_pos hx] at h
      cases h
      rw [List.set_cons_zero]
      exact List.find?_cons_of_pos _ hb
    · rw [if_neg hx, List.findIdx?_succ] at h
      obtain ⟨j, hj, hi⟩ := Option.map_eq_some'.mp h
      subst hi
      rw [List.set_cons_succ, List.find?_cons_of_neg _ hx]
      exact ih hj hb

/-- When the pair exists and the commit is not backdated,
`updateMasterRate` replaces exactly the first matching master by its
committed version. -/
theorem updateMasterRate_found_spec {prev : List MasterItem} {sup : JStr}
    {itn : String} {m : MasterItem} (p : ℚ) (n : JStr) (d : String)
    (hfind : findMaster prev sup itn = some m)
    (hb : isInvoiceBackdated d m.lastUpdated = false) :
    ∃ i, prev.findIdx? (fun mm => mm.supplierName == sup && mm.name == itn)
          = some i ∧
      prev[i]? = some m ∧
      (m.supplierName == sup && m.name == itn) = true ∧
      updateMasterRate prev sup itn p n d
        = prev.set i (committedMaster m p n d) := by
  unfold findMaster at hfind
  rcases hidx : prev.findIdx?
      (fun mm => mm.supplierName == sup && mm.name == itn) with _ | i
  · rw [findIdx?_none_find?_none hidx] at hfind
    cases hfind
  · obtain ⟨a, hget, hpa, hfind'⟩ := findIdx?_some_spec hidx
    rw [hfind'] at hfind
    cases hfind
    refine ⟨i, hidx, hget, hpa, ?_⟩
    simp only [updateMasterRate, hidx, hget, hb]
    simp

/-- Claim C6: a commit on an existing (supplierName, itemName) pair whose
invoice date is backdated relative to that MasterItem's lastUpdated is a
no-op — the baseline store after the commit is the very same list, so
every MasterItem's currentPrice, lastUpdated and history are unchanged
and no entry is appended. -/
theorem backdated_commit_is_noop (prev : List MasterItem) (sup : JStr)
    (itn : String) (p : ℚ) (n : JStr) (d : String) (m : MasterItem)
    (hfind : findMaster prev sup itn = some m)
    (hb : isInvoiceBackdated d m.lastUpdated = true) :
    updateMasterRate prev sup itn p n d = prev := by
  unfold findMaster at hfind
  rcases hidx : prev.findIdx?
      (fun mm => mm.supplierName == sup && mm.name == itn) with _ | i
  · rw [findIdx?_none_find?_none hidx] at hfind
    cases hfind
  · obtain ⟨a, hget, hpa, hfind'⟩ := findIdx?_some_spec hidx
    rw [hfind'] at hfind
    cases hfind
    simp only [updateMasterRate, hidx, hget, hb]
    simp

/-- Witness for C6: committing a January-dated price against the baseline
re-anchored on 2024-02-01 leaves the store untouched. -/
theorem backdated_commit_is_noop_witness :
    findMaster [lateAcmeWidget] (some "Acme") "Widget" = some lateAcmeWidget ∧
    isInvoiceBackdated "2024-01-15" lateAcmeWidget.lastUpdated = true ∧
    updateMasterRate [lateAcmeWidget] (some "Acme") "Widget" 8 (some "B0")
      "2024-01-15" = [lateAcmeWidget] :=
  ⟨by decide, by decide,
   backdated_commit_is_noop [lateAcmeWidget] (some "Acme") "Widget" 8
     (some "B0") "2024-01-15" lateAcmeWidget (by decide) (by decide)⟩

/-- Claim C10: a non-backdated commit on an existing pair always changes
the store, even when the committed price equals the current baseline
price: the matching master's currentPrice becomes the committed price,
lastUpdated becomes the invoice date, and a fresh history entry is
prepended whose variance is newPrice − currentPrice (0 for a repeated
acceptance) — never a store-level no-op. -/
theorem nonbackdated_commit_updates_store (prev : List MasterItem)
    (sup : JStr) (itn : String) (p : ℚ) (n : JStr) (d : String)
    (m : MasterItem)
    (hfind : findMaster prev sup itn = some m)
    (hb : isInvoiceBackdated d m.lastUpdated = false) :
    ∃ m', findMaster (updateMasterRate prev sup itn p n d) sup itn = some m' ∧
      m'.currentPrice = p ∧ m'.lastUpdated = d ∧
      (∃ e, m'.history = e :: m.history ∧ e.variance = p - m.currentPrice ∧
        e.date = d ∧ (p = m.currentPrice → e.variance = 0)) ∧
      updateMasterRate prev sup itn p n d ≠ prev := by
  obtain ⟨i, hidx, hget, hpa, heq⟩ := updateMasterRate_found_spec p n d hfind hb
  have hfind2 : findMaster (updateMasterRate prev sup itn p n d) sup itn
      = some (committedMaster m p n d) := by
    rw [heq]
    unfold findMaster
    exact find?_set_self hidx hpa
  have hne : updateMasterRate prev sup itn p n d ≠ prev := by
    rw [heq]
    intro hcon
    have hlt : i < prev.length := by
      rcases h : prev[i]? with _ | a
      · rw [h] at hget; cases hget
      · exact (List.getElem?_eq_some.mp h).1
    have h1 := congrArg (fun l => l[i]?) hcon
    simp only at h1
    rw [List.getElem?_set_self hlt, hget] at h1
    have h2 : commitHistoryEntry m p n d :: m.history = m.history :=
      congrArg MasterItem.history (Option.some.inj h1)
    exact List.cons_ne_self _ _ h2
  exact ⟨committedMaster m p n d, hfind2, rfl, rfl,
    ⟨commitHistoryEntry m p n d, rfl, rfl, rfl,
      fun hp => by simp [commitHistoryEntry, hp]⟩, hne⟩

/-- Witness for C10: re-committing the unchanged price 10 on a
non-backdated date still prepends a zero-variance entry and moves
lastUpdated. -/
theorem nonbackdated_commit_updates_store_witness :
    findMaster [acmeWidget] (some "Acme") "Widget" = some acmeWidget ∧
    isInvoiceBackdated "2024-02-01" acmeWidget.lastUpdated = false ∧
    (∃ m', findMaster (updateMasterRate [acmeWidget] (some "Acme") "Widget" 10
        (some "B1") "2024-02-01") (some "Acme") "Widget" = some m' ∧
      m'.currentPrice = 10 ∧ m'.lastUpdated = "2024-02-01" ∧
      (∃ e, m'.history = e :: acmeWidget.history ∧
        e.variance = 10 - acmeWidget.currentPrice ∧ e.date = "2024-02-01" ∧
        (10 = acmeWidget.currentPrice → e.variance = 0)) ∧
      updateMasterRate [acmeWidget] (some "Acme") "Widget" 10 (some "B1")
        "2024-02-01" ≠ [acmeWidget]) :=
  ⟨by decide, by decide,
   nonbackdated_commit_updates_store [acmeWidget] (some "Acme") "Widget" 10
     (some "B1") "2024-02-01" acmeWidget (by decide) (by decide)⟩

theorem isInvoiceBackdated_self (d : String) :
    isInvoiceBackdated d d = false := by
  unfold isInvoiceBackdated
  rcases hd : d == "" with _ | _
  · rw [if_neg (by simp)]
    rcases jsDateParse (stripTime d) with _ | a
    · rfl
    · simp
  · simp

theorem mem_enrichedInvoicesOf {ms : List MasterItem} {raw : List Invoice}
    {inv : Invoice} :
    inv ∈ enrichedInvoicesOf ms raw ↔ ∃ r ∈ raw, inv = enrichInvoice ms r := by
  unfold enrichedInvoicesOf
  rw [List.mem_mergeSort, List.mem_map]
  constructor
  · rintro ⟨r, hr, h⟩
    exact ⟨r, hr, h.symm⟩
  · rintro ⟨r, hr, h⟩
    exact ⟨r, hr, h.symm⟩

/-- The three outcomes of per-item enrichment: no baseline, backdated
baseline (treated identically), or live baseline comparison. -/
theorem enrichItem_cases (ms : List MasterItem) (r : Invoice)
    (it0 : InvoiceItem) :
    (findMaster ms r.supplierName it0.name = none ∧
      enrichItem ms r it0 = noBaselineItem it0) ∨
    (∃ m0, findMaster ms r.supplierName it0.name = some m0 ∧
      isInvoiceBackdated r.date m0.lastUpdated = true ∧
      enrichItem ms r it0 = noBaselineItem it0) ∨
    (∃ m0, findMaster ms r.supplierName it0.name = some m0 ∧
      isInvoiceBackdated r.date m0.lastUpdated = false ∧
      enrichItem ms r it0 = baselineComparedItem m0 it0) := by
  rcases hm : findMaster ms r.supplierName it0.name with _ | m0
  · refine Or.inl ⟨rfl, ?_⟩
    unfold enrichItem
    rw [hm]
    rfl
  · rcases hb : isInvoiceBackdated r.date m0.lastUpdated with _ | _
    · refine Or.inr (Or.inr ⟨m0, rfl, hb, ?_⟩)
      unfold enrichItem
      rw [hm]
      simp [hb, baselineComparedItem]
    · refine Or.inr (Or.inl ⟨m0, rfl, hb, ?_⟩)
      unfold enrichItem
      rw [hm]
      simp [hb, noBaselineItem]

/-- Claim C7: accepting a pending variance and then committing the very
same (supplier, item, price, invoiceNumber, date) again records a
variance of 0 on the second commit, and after the first commit the
pending-variance queue no longer contains that item: no queued record
for the same supplier and item carries a price within the 0.001 sync
tolerance of the committed one. -/
theorem commit_idempotent (ms : List MasterItem) (raw : List Invoice)
    (v : VarianceRecord)
    (hv : v ∈ pendingVariancesOf ms (enrichedInvoicesOf ms raw)) :
    ∃ m1 m2 e,
      findMaster (acceptVariance ms v) v.supplierName v.itemName = some m1 ∧
      m1.currentPrice = v.newPrice ∧ m1.lastUpdated = v.date ∧
      findMaster (acceptVariance (acceptVariance ms v) v) v.supplierName
        v.itemName = some m2 ∧
      m2.history = e :: m1.history ∧ e.variance = 0 ∧
      (∀ w ∈ pendingVariancesOf (acceptVariance ms v)
          (enrichedInvoicesOf (acceptVariance ms v) raw),
        w.supplierName = v.supplierName → w.itemName = v.itemName →
        ¬(|w.newPrice - v.newPrice| < (1 : ℚ)/1000)) := by
  obtain ⟨inv, hinv, item, hitem, hp, hveq⟩ := mem_pendingVariancesOf.mp hv
  obtain ⟨r, hr, hinveq⟩ := mem_enrichedInvoicesOf.mp hinv
  subst hinveq
  obtain ⟨it0, hit0, hitemeq⟩ := List.mem_map.mp hitem
  obtain ⟨h1, -⟩ := isPendingItem_iff.mp hp
  -- the first commit hits an existing, non-backdated baseline
  have hmaster : ∃ m0, findMaster ms r.supplierName it0.name = some m0 ∧
      isInvoiceBackdated r.date m0.lastUpdated = false := by
    rcases enrichItem_cases ms r it0 with ⟨hm, hval⟩ | ⟨m0, hm, hb, hval⟩ |
        ⟨m0, hm, hb, hval⟩
    · rw [← hitemeq, hval] at h1
      norm_num [noBaselineItem] at h1
    · rw [← hitemeq, hval] at h1
      norm_num [noBaselineItem] at h1
    · exact ⟨m0, hm, hb⟩
  obtain ⟨m0, hm0, hb0⟩ := hmaster
  subst hveq
  subst hitemeq
  -- field computations for the pending record
  have hsup : (mkVarianceRecord ms (enrichInvoice ms r) (enrichItem ms r it0)).supplierName
      = r.supplierName := rfl
  have hnam : (mkVarianceRecord ms (enrichInvoice ms r) (enrichItem ms r it0)).itemName
      = it0.name := rfl
  have hdat : (mkVarianceRecord ms (enrichInvoice ms r) (enrichItem ms r it0)).date
      = r.date := rfl
  have hnew : (mkVarianceRecord ms (enrichInvoice ms r) (enrichItem ms r it0)).newPrice
      = it0.unitPrice := rfl
  set v := mkVarianceRecord ms (enrichInvoice ms r) (enrichItem ms r it0) with hvdef
  have hfind : findMaster ms v.supplierName v.itemName = some m0 := by
    rw [hsup, hnam]; exact hm0
  have hb : isInvoiceBackdated v.date m0.lastUpdated = false := by
    rw [hdat]; exact hb0
  obtain ⟨i, hidx, hget, hpa, heq⟩ :=
    updateMasterRate_found_spec v.newPrice v.invoiceNumber v.date hfind hb
  set m1 := committedMaster m0 v.newPrice v.invoiceNumber v.date with hm1def
  have hfind2 : findMaster (acceptVariance ms v) v.supplierName v.itemName
      = some m1 := by
    show findMaster (updateMasterRate ms v.supplierName v.itemName v.newPrice
      v.invoiceNumber v.date) v.supplierName v.itemName = some m1
    rw [heq]
    unfold findMaster
    exact find?_set_self hidx hpa
  have hb2 : isInvoiceBackdated v.date m1.lastUpdated = false := by
    show isInvoiceBackdated v.date v.date = false
    exact isInvoiceBackdated_self v.date
  obtain ⟨i2, hidx2, hget2, hpa2, heq2⟩ :=
    updateMasterRate_found_spec v.newPrice v.invoiceNumber v.date hfind2 hb2
  set m2 := committedMaster m1 v.newPrice v.invoiceNumber v.date with hm2def
  have hfind3 : findMaster (acceptVariance (acceptVariance ms v) v)
      v.supplierName v.itemName = some m2 := by
    show findMaster (updateMasterRate (acceptVariance ms v) v.supplierName
      v.itemName v.newPrice v.invoiceNumber v.date) v.supplierName v.itemName
      = some m2
    rw [heq2]
    unfold findMaster
    exact find?_set_self hidx2 hpa2
  refine ⟨m1, m2, commitHistoryEntry m1 v.newPrice v.invoiceNumber v.date,
    hfind2, rfl, rfl, hfind3, rfl, ?_, ?_⟩
  · show v.newPrice - m1.currentPrice = 0
    show v.newPrice - v.newPrice = 0
    exact sub_self _
  · intro w hw hwsup hwnam
    obtain ⟨inv', hinv', item', hitem', hp', hweq⟩ :=
      mem_pendingVariancesOf.mp hw
    obtain ⟨-, h2'⟩ := isPendingItem_iff.mp hp'
    intro hclose
    refine h2' ⟨m1, ?_, ?_⟩
    · have e1 : inv'.supplierName = v.supplierName := by
        rw [← hwsup, hweq]
        rfl
      have e2 : item'.name = v.itemName := by
        rw [← hwnam, hweq]
        rfl
      rw [e1, e2]
      exact hfind2
    · have e3 : item'.unitPrice = w.newPrice := by
        rw [hweq]
        rfl
      rw [e3]
      have e4 : m1.currentPrice = v.newPrice := rfl
      rw [e4, abs_sub_comm]
      exact hclose

/-- Witness for C7: accepting the queued +2.00 Widget shift twice on the
concrete store. -/
theorem commit_idempotent_witness :
    pendingWidget ∈ pendingVariancesOf [acmeWidget]
      (enrichedInvoicesOf [acmeWidget] [febInvoice]) ∧
    (∃ m1 m2 e,
      findMaster (acceptVariance [acmeWidget] pendingWidget)
        pendingWidget.supplierName pendingWidget.itemName = some m1 ∧
      m1.currentPrice = pendingWidget.newPrice ∧
      m1.lastUpdated = pendingWidget.date ∧
      findMaster (acceptVariance (acceptVariance [acmeWidget] pendingWidget)
        pendingWidget) pendingWidget.supplierName pendingWidget.itemName
        = some m2 ∧
      m2.history = e :: m1.history ∧ e.variance = 0 ∧
      (∀ w ∈ pendingVariancesOf (acceptVariance [acmeWidget] pendingWidget)
          (enrichedInvoicesOf (acceptVariance [acmeWidget] pendingWidget)
            [febInvoice]),
        w.supplierName = pendingWidget.supplierName →
        w.itemName = pendingWidget.itemName →
        ¬(|w.newPrice - pendingWidget.newPrice| < (1 : ℚ)/1000))) := by
  have hv : pendingWidget ∈ pendingVariancesOf [acmeWidget]
      (enrichedInvoicesOf [acmeWidget] [febInvoice]) := by
    simp only [pendingWidget, pendingVariancesOf, enrichedInvoicesOf,
      List.mem_mergeSort, List.mem_flatMap]
    decide
  exact ⟨hv, commit_idempotent [acmeWidget] [febInvoice] pendingWidget hv⟩

/-! ### Lemmas about item auto-registration -/

theorem findMaster_append_left_isSome {l1 l2 : List MasterItem} {sup : JStr}
    {itn : String} (h : (findMaster l1 sup itn).isSome = true) :
    (findMaster (l1 ++ l2) sup itn).isSome = true := by
  unfold findMaster at h ⊢
  rw [List.find?_append]
  rcases hfind : l1.find?
      (fun m => m.supplierName == sup && m.name == itn) with _ | a
  · rw [hfind] at h
    cases h
  · rw [hfind]
    rfl

theorem findMaster_append_left_none {l1 l2 : List MasterItem} {sup : JStr}
    {itn : String} (h : findMaster (l1 ++ l2) sup itn = none) :
    findMaster l1 sup itn = none := by
  unfold findMaster at h ⊢
  rw [List.find?_append] at h
  rcases hfind : l1.find?
      (fun m => m.supplierName == sup && m.name == itn) with _ | a
  · exact hfind
  · rw [hfind] at h
    cases h

theorem registerFold_spec (ext : Extraction) :
    ∀ (items : List ExtractionItem) (acc : List MasterItem),
      ∃ delta, items.foldl (registerStep ext) acc = acc ++ delta ∧
        ∀ x ∈ delta, ∃ it ∈ items, x = seedMaster ext it ∧
          findMaster acc ext.supplierName it.name = none := by
  intro items
  induction items with
  | nil =>
    intro acc
    exact ⟨[], by simp, by simp⟩
  | cons it rest ih =>
    intro acc
    rw [List.foldl_cons]
    rcases hm : findMaster acc ext.supplierName it.name with _ | m
    · have hstep : registerStep ext acc it = acc ++ [seedMaster ext it] := by
        unfold registerStep
        rw [hm]
      obtain ⟨delta, hfold, hprop⟩ := ih (acc ++ [seedMaster ext it])
      refine ⟨seedMaster ext it :: delta, ?_, ?_⟩
      · rw [hstep, hfold, List.append_assoc]
        rfl
      · intro x hx
        rcases List.mem_cons.mp hx with h0 | hx
        · exact ⟨it, List.mem_cons_self it rest, h0, hm⟩
        · obtain ⟨it', hit', hxeq, hnone⟩ := hprop x hx
          exact ⟨it', List.mem_cons_of_mem it hit', hxeq,
            findMaster_append_left_none hnone⟩
    · have hstep : registerStep ext acc it = acc := by
        unfold registerStep
        rw [hm]
      obtain ⟨delta, hfold, hprop⟩ := ih acc
      refine ⟨delta, by rw [hstep, hfold], ?_⟩
      intro x hx
      obtain ⟨it', hit', hxeq, hnone⟩ := hprop x hx
      exact ⟨it', List.mem_cons_of_mem it hit', hxeq, hnone⟩

theorem registerFold_registers (ext : Extraction) :
    ∀ (items : List ExtractionItem) (acc : List MasterItem)
      (it : ExtractionItem),
      (it ∈ items ∨ (findMaster acc ext.supplierName it.name).isSome = true) →
      (findMaster (items.foldl (registerStep ext) acc)
        ext.supplierName it.name).isSome = true := by
  intro items
  induction items with
  | nil =>
    intro acc it h
    rcases h with h | h
    · cases h
    · exact h
  | cons it0 rest ih =>
    intro acc it h
    rw [List.foldl_cons]
    have hmono : ∀ jt : ExtractionItem,
        (findMaster acc ext.supplierName jt.name).isSome = true →
        (findMaster (registerStep ext acc it0)
          ext.supplierName jt.name).isSome = true := by
      intro jt hj
      rcases hm : findMaster acc ext.supplierName it0.name with _ | m
      · have hstep : registerStep ext acc it0 = acc ++ [seedMaster ext it0] := by
          unfold registerStep
          rw [hm]
        rw [hstep]
        exact findMaster_append_left_isSome hj
      · have hstep : registerStep ext acc it0 = acc := by
          unfold registerStep
          rw [hm]
        rw [hstep]
        exact hj
    have hself : (findMaster (registerStep ext acc it0)
        ext.supplierName it0.name).isSome = true := by
      rcases hm : findMaster acc ext.supplierName it0.name with _ | m
      · have hstep : registerStep ext acc it0 = acc ++ [seedMaster ext it0] := by
          unfold registerStep
          rw [hm]
        rw [hstep]
        unfold findMaster
        rw [List.find?_append]
        have hm' : List.find? (fun m => m.supplierName == ext.supplierName
            && m.name == it0.name) acc = none := hm
        rw [hm', List.find?_cons_of_pos _ (by simp [seedMaster])]
        rfl
      · have hstep : registerStep ext acc it0 = acc := by
          unfold registerStep
          rw [hm]
        rw [hstep, hm]
        rfl
    rcases h with h | h
    · rcases List.mem_cons.mp h with h0 | hrest
      · subst h0
        exact ih _ it (Or.inr hself)
      · exact ih _ it (Or.inl hrest)
    · exact ih _ it (Or.inr (hmono it h))

/-- Claim C8: ingestion's item auto-registration only ever appends: the
masters already in the store are left completely unchanged (the new
store is the old one plus a suffix of created seeds), every created
master is the seed — item's own unitPrice, lastUpdated = invoice date,
a single zero-variance Initial Registration entry — of an extraction
item whose (supplierName, name) pair had no MasterItem yet, and after
ingestion every extraction item's pair has a MasterItem. -/
theorem ingestion_auto_registration (st : AppState) (ext : Extraction)
    (fn fid : String) :
    ∃ created,
      (ingestExtraction st ext fn fid).masterItems
        = st.masterItems ++ created ∧
      (∀ x ∈ created, ∃ it ∈ ext.items,
        x.supplierName = ext.supplierName ∧ x.name = it.name ∧
        x.currentPrice = it.unitPrice ∧ x.lastUpdated = ext.date ∧
        x.history = [initialEntry ext.date it.unitPrice ext.invoiceNumber] ∧
        findMaster st.masterItems ext.supplierName it.name = none) ∧
      (∀ it ∈ ext.items,
        (findMaster (ingestExtraction st ext fn fid).masterItems
          ext.supplierName it.name).isSome = true) := by
  obtain ⟨delta, hfold, hprop⟩ := registerFold_spec ext ext.items st.masterItems
  have hmast : (ingestExtraction st ext fn fid).masterItems
      = ext.items.foldl (registerStep ext) st.masterItems := rfl
  refine ⟨delta, by rw [hmast, hfold], ?_, ?_⟩
  · intro x hx
    obtain ⟨it, hit, hxeq, hnone⟩ := hprop x hx
    subst hxeq
    exact ⟨it, hit, rfl, rfl, rfl, rfl, rfl, hnone⟩
  · intro it hit
    rw [hmast]
    exact registerFold_registers ext ext.items st.masterItems it (Or.inl hit)

/-- Witness for C8: ingesting the Widget extraction into the empty store. -/
theorem ingestion_auto_registration_witness :
    ∃ created,
      (ingestExtraction emptyState widgetExtraction "a.pdf"
        "inv-1").masterItems = emptyState.masterItems ++ created ∧
      (∀ x ∈ created, ∃ it ∈ widgetExtraction.items,
        x.supplierName = widgetExtraction.supplierName ∧ x.name = it.name ∧
        x.currentPrice = it.unitPrice ∧
        x.lastUpdated = widgetExtraction.date ∧
        x.history = [initialEntry widgetExtraction.date it.unitPrice
          widgetExtraction.invoiceNumber] ∧
        findMaster emptyState.masterItems widgetExtraction.supplierName
          it.name = none) ∧
      (∀ it ∈ widgetExtraction.items,
        (findMaster (ingestExtraction emptyState widgetExtraction "a.pdf"
          "inv-1").masterItems widgetExtraction.supplierName
          it.name).isSome = true) :=
  ingestion_auto_registration emptyState widgetExtraction "a.pdf" "inv-1"

theorem updateMasterRate_member_cases (prev : List MasterItem) (sup : JStr)
    (itn : String) (p : ℚ) (n : JStr) (d : String) :
    ∀ x ∈ updateMasterRate prev sup itn p n d,
      (x ∈ prev) ∨ (∃ m ∈ prev, ∃ e, x.history = e :: m.history) ∨
      (∃ e, x.history = [e]) := by
  intro x hx
  rcases hidx : prev.findIdx?
      (fun mm => mm.supplierName == sup && mm.name == itn) with _ | i
  · have hstep : updateMasterRate prev sup itn p n d
        = freshMaster sup itn p n d :: prev := by
      simp only [updateMasterRate, hidx]
    rw [hstep] at hx
    rcases List.mem_cons.mp hx with h0 | h1
    · subst h0
      exact Or.inr (Or.inr ⟨initialEntry d p n, rfl⟩)
    · exact Or.inl h1
  · rcases hget : prev[i]? with _ | item
    · have hstep : updateMasterRate prev sup itn p n d = prev := by
        simp only [updateMasterRate, hidx, hget]
      rw [hstep] at hx
      exact Or.inl hx
    · rcases hb : isInvoiceBackdated d item.lastUpdated with _ | _
      · have hstep : updateMasterRate prev sup itn p n d
            = prev.set i (committedMaster item p n d) := by
          simp only [updateMasterRate, hidx, hget, hb]
          simp
        rw [hstep] at hx
        have hmem : item ∈ prev := by
          obtain ⟨hlt, heq⟩ := List.getElem?_eq_some.mp hget
          exact heq ▸ List.getElem_mem hlt
        rcases List.mem_or_eq_of_mem_set hx with h1 | h0
        · exact Or.inl h1
        · subst h0
          exact Or.inr (Or.inl ⟨item, hmem,
            commitHistoryEntry item p n d, rfl⟩)
      · have hstep : updateMasterRate prev sup itn p n d = prev := by
          simp only [updateMasterRate, hidx, hget, hb]
          simp
        rw [hstep] at hx
        exact Or.inl hx

theorem registerNewItems_member_cases (prev : List MasterItem)
    (ext : Extraction) :
    ∀ x ∈ registerNewItems prev ext,
      (x ∈ prev) ∨ (∃ e, x.history = [e]) := by
  intro x hx
  obtain ⟨delta, hfold, hprop⟩ := registerFold_spec ext ext.items prev
  have hx' : x ∈ ext.items.foldl (registerStep ext) prev := hx
  rw [hfold] at hx'
  rcases List.mem_append.mp hx' with h1 | h2
  · exact Or.inl h1
  · obtain ⟨it, hit, hxeq, -⟩ := hprop x h2
    subst hxeq
    exact Or.inr ⟨initialEntry ext.date it.unitPrice ext.invoiceNumber, rfl⟩

theorem acceptVariances_history_suffix :
    ∀ (vs : List VarianceRecord) (ms : List MasterItem),
      ∀ x ∈ acceptVariances ms vs,
        (∃ m ∈ ms, m.history.IsSuffix x.history) ∨
        (∃ e, [e].IsSuffix x.history) := by
  intro vs
  induction vs with
  | nil =>
    intro ms x hx
    have hx' : x ∈ ms := hx
    exact Or.inl ⟨x, hx', List.suffix_refl _⟩
  | cons v rest ih =>
    intro ms x hx
    have hx' : x ∈ acceptVariances (acceptVariance ms v) rest := hx
    rcases ih (acceptVariance ms v) x hx' with ⟨m', hm', hsuf⟩ | h
    · rcases updateMasterRate_member_cases ms v.supplierName v.itemName
          v.newPrice v.invoiceNumber v.date m' hm' with
        h1 | ⟨m, hm, e, he⟩ | ⟨e, he⟩
      · exact Or.inl ⟨m', h1, hsuf⟩
      · refine Or.inl ⟨m, hm, List.IsSuffix.trans ?_ hsuf⟩
        rw [he]
        exact List.suffix_cons e m.history
      · refine Or.inr ⟨e, List.IsSuffix.trans ?_ hsuf⟩
        rw [he]
    · exact Or.inr h

/-- Claim C9: every baseline-store mutation preserves the history
invariant.  A single commit leaves every master either untouched, or
with exactly one new entry prepended at the front of its unchanged
previous history, or freshly created with a one-entry history; item
auto-registration leaves every existing master untouched and creates
only one-entry histories; and a batched accept leaves every master's
prior history intact as a suffix under the prepended entries — existing
entries are never mutated, removed or reordered. -/
theorem history_append_only :
    (∀ (prev : List MasterItem) (sup : JStr) (itn : String) (p : ℚ)
      (n : JStr) (d : String), ∀ x ∈ updateMasterRate prev sup itn p n d,
      (x ∈ prev) ∨ (∃ m ∈ prev, ∃ e, x.history = e :: m.history) ∨
      (∃ e, x.history = [e])) ∧
    (∀ (st : AppState) (ext : Extraction) (fn fid : String),
      ∀ x ∈ (ingestExtraction st ext fn fid).masterItems,
      (x ∈ st.masterItems) ∨ (∃ e, x.history = [e])) ∧
    (∀ (ms : List MasterItem) (vs : List VarianceRecord),
      ∀ x ∈ acceptVariances ms vs,
      (∃ m ∈ ms, m.history.IsSuffix x.history) ∨
      (∃ e, [e].IsSuffix x.history)) := by
  refine ⟨updateMasterRate_member_cases, ?_, ?_⟩
  · intro st ext fn fid x hx
    exact registerNewItems_member_cases st.masterItems ext x hx
  · intro ms vs x hx
    exact acceptVariances_history_suffix vs ms x hx

/-- Witness for C9: the master produced by committing 12.00 against the
Widget baseline carries one prepended entry over its old history. -/
theorem history_append_only_witness :
    (committedMaster acmeWidget 12 (some "B1") "2024-02-01")
      ∈ updateMasterRate [acmeWidget] (some "Acme") "Widget" 12 (some "B1")
        "2024-02-01" ∧
    ((committedMaster acmeWidget 12 (some "B1") "2024-02-01") ∈ [acmeWidget] ∨
     (∃ m ∈ [acmeWidget], ∃ e,
        (committedMaster acmeWidget 12 (some "B1") "2024-02-01").history
          = e :: m.history) ∨
     (∃ e, (committedMaster acmeWidget 12 (some "B1")
        "2024-02-01").history = [e])) :=
  ⟨by decide, history_append_only.1 [acmeWidget] (some "Acme") "Widget" 12
    (some "B1") "2024-02-01" _ (by decide)⟩

end PriceGuardian
